import Mathlib

/-!
Verification development for the sigmars Sigma rule engine.

Shallow embedding of the Rust sources: JSON values (`serde_json::Value`),
the time-windowed counters of `src/correlation/state/counter.rs`, the
correlation evaluator of `src/correlation/rule.rs`, the condition AST of
`src/detection/condition.rs`, the selection evaluator of
`src/detection/selection.rs`, the log-source filter of
`src/detection/filter.rs`, the collection of `src/collection.rs`, and the
timespan deserializer of `src/correlation/serde.rs`.

Rust `HashMap`s are modelled as association lists with first-key lookup
(duplicate keys never arise from the modelled insertions), `HashSet`s as
lists with membership-checked insertion, and `i64`/`u64` as `Int`/`Nat`
(with explicit bounds where overflow is an error in the source).
-/

/-- JSON values (`serde_json::Value`).  Numbers are modelled as `Int`;
no claim involves floating-point values. -/
inductive Json where
  | null
  | bool (b : Bool)
  | num (n : Int)
  | str (s : String)
  | arr (xs : List Json)
  | obj (fields : List (String × Json))

/-- `serde_json::Value::get` with a string key: field lookup on objects,
`None` on every other variant. -/
def Json.getKey : Json → String → Option Json
  | .obj fields, k => fields.lookup k
  | _, _ => none

/-- `serde_json::Value::as_object`. -/
def Json.asObject : Json → Option (List (String × Json))
  | .obj fields => some fields
  | _ => none

/-- JSON string escaping as done by `serde_json` when serializing
(quotes and backslashes; control characters do not occur in the claims). -/
def Json.escapeString (s : String) : String :=
  ⟨s.data.foldr (fun c acc =>
    if c = '"' ∨ c = '\\' then '\\' :: c :: acc else c :: acc) []⟩

mutual
/-- `serde_json::Value::to_string` (compact JSON serialization, used by
the group-key construction in `Correlation::eval`). -/
def Json.toString : Json → String
  | .null => "null"
  | .bool true => "true"
  | .bool false => "false"
  | .num n => ToString.toString n
  | .str s => "\"" ++ Json.escapeString s ++ "\""
  | .arr xs => "[" ++ String.intercalate "," (Json.toStringList xs) ++ "]"
  | .obj fs => "\x7b" ++ String.intercalate "," (Json.toStringObj fs) ++ "\x7d"

/-- Serializations of the elements of a JSON array. -/
def Json.toStringList : List Json → List String
  | [] => []
  | x :: xs => Json.toString x :: Json.toStringList xs

/-- Serializations of the fields of a JSON object. -/
def Json.toStringObj : List (String × Json) → List String
  | [] => []
  | (k, v) :: fs =>
      ("\"" ++ Json.escapeString k ++ "\":" ++ Json.toString v) :: Json.toStringObj fs
end

mutual
/-- `PartialEq` on `serde_json::Value` (structural equality). -/
def Json.beq : Json → Json → Bool
  | .null, .null => true
  | .bool a, .bool b => a = b
  | .num a, .num b => a = b
  | .str a, .str b => a = b
  | .arr a, .arr b => Json.beqList a b
  | .obj a, .obj b => Json.beqObj a b
  | _, _ => false

/-- `PartialEq` on `Vec<serde_json::Value>`. -/
def Json.beqList : List Json → List Json → Bool
  | [], [] => true
  | x :: xs, y :: ys => Json.beq x y && Json.beqList xs ys
  | _, _ => false

/-- `PartialEq` on the field list of a JSON object. -/
def Json.beqObj : List (String × Json) → List (String × Json) → Bool
  | [], [] => true
  | (k, v) :: xs, (k', v') :: ys => k = k' && Json.beq v v' && Json.beqObj xs ys
  | _, _ => false
end

/-- Stable insertion into an ascending list of strings (Rust `String`
ordering is lexicographic, which agrees with `String.lt` on the
character lists for the ASCII data handled here). -/
def insertSorted (s : String) : List String → List String
  | [] => [s]
  | t :: ts => if t < s then t :: insertSorted s ts else s :: t :: ts

/-- `BinaryHeap::into_sorted_vec`: the elements in ascending order. -/
def sortStrings (l : List String) : List String :=
  l.foldr insertSorted []

section Counter
/-!  `src/correlation/state/counter.rs`: `Counter<T, K>` keeps a
`HashMap<String, T>`; increments arrive through `incr` and expiry
decrements through the delay queue.  The two instantiations are
`EventCount = Counter<i64, String>` and
`ValueCount = Counter<HashMap<String, i64>, (String, String)>`.
The maps are modelled as association lists; `incr`/`count`/`has_entry`
are the map updates and reads those methods perform (the mpsc send that
schedules the expiry timer always succeeds in this model; timers are
driven explicitly by `decr_entry`). -/

/-- The map of an `EventCount` counter: group key to `i64` count. -/
abbrev ECMap := List (String × Int)

/-- `CountParameter::incr_entry` for `i64`: add one to the entry,
inserting `1` when absent. -/
def ECMap.incrEntry : ECMap → String → ECMap
  | [], key => [(key, 1)]
  | (k, v) :: rest, key =>
      if k = key then (k, v + 1) :: rest
      else (k, v) :: ECMap.incrEntry rest key

/-- `CountParameter::decr_entry` for `i64`: subtract one, removing the
entry when the result is `<= 0`; absent keys are untouched. -/
def ECMap.decrEntry : ECMap → String → ECMap
  | [], _ => []
  | (k, v) :: rest, key =>
      if k = key then (if v - 1 ≤ 0 then rest else (k, v - 1) :: rest)
      else (k, v) :: ECMap.decrEntry rest key

/-- `CountParameter::count` for `i64`: the stored value, `0` when absent. -/
def ECMap.count (m : ECMap) (key : String) : Int :=
  match m.lookup key with
  | some v => v
  | none => 0

/-- The map of a `ValueCount` counter: group key to a map from
discriminator value to `i64` count. -/
abbrev VCMap := List (String × List (String × Int))

/-- The inner update of `CountParameter::incr_entry` for
`HashMap<String, i64>`: add one to the discriminator's entry, inserting
`1` when absent (`or_insert_with(HashMap::from([(value, 1)]))` for a
fresh group behaves identically on the empty inner map). -/
def VCMap.incrInner : List (String × Int) → String → List (String × Int)
  | [], value => [(value, 1)]
  | (v, c) :: rest, value =>
      if v = value then (v, c + 1) :: rest
      else (v, c) :: VCMap.incrInner rest value

/-- `CountParameter::incr_entry` for `HashMap<String, i64>`. -/
def VCMap.incrEntry : VCMap → String × String → VCMap
  | [], (key, value) => [(key, [(value, 1)])]
  | (k, inner) :: rest, (key, value) =>
      if k = key then (k, VCMap.incrInner inner value) :: rest
      else (k, inner) :: VCMap.incrEntry rest (key, value)

/-- The inner update of `CountParameter::decr_entry` for
`HashMap<String, i64>`: remove the discriminator when its count is
`<= 1`, otherwise subtract one; absent discriminators are untouched. -/
def VCMap.decrInner : List (String × Int) → String → List (String × Int)
  | [], _ => []
  | (v, c) :: rest, value =>
      if v = value then (if c ≤ 1 then rest else (v, c - 1) :: rest)
      else (v, c) :: VCMap.decrInner rest value

/-- `CountParameter::decr_entry` for `HashMap<String, i64>`: decrement
the discriminator and drop the group when its inner map becomes empty. -/
def VCMap.decrEntry : VCMap → String × String → VCMap
  | [], _ => []
  | (k, inner) :: rest, (key, value) =>
      if k = key then
        let inner := VCMap.decrInner inner value
        if inner.length = 0 then rest else (k, inner) :: rest
      else (k, inner) :: VCMap.decrEntry rest (key, value)

/-- `CountParameter::count` for `HashMap<String, i64>`:
`v.values().sum()` — the sum of all discriminator counts of the group. -/
def VCMap.count (m : VCMap) (key : String) : Int :=
  match m.lookup key with
  | some inner => (inner.map Prod.snd).sum
  | none => 0

/-- `ValueCount::has_entry`: the group exists and contains the
discriminator as a key. -/
def VCMap.hasEntry (m : VCMap) (groupkey key : String) : Bool :=
  match m.lookup groupkey with
  | some inner => (inner.lookup key).isSome
  | none => false

end Counter

section CorrelationModel
/-!  `src/correlation/serde.rs` and `src/correlation/rule.rs`. -/

/-- `Condition` of `src/correlation/serde.rs`: a numeric comparison on
the observed count. -/
inductive CCondition where
  | gt (n : Int)
  | gte (n : Int)
  | lt (n : Int)
  | lte (n : Int)
  | eq (n : Int)
deriving DecidableEq, Repr

/-- `Condition::is_match`; `Correlation::eval` inlines the identical
five-armed match at both of its uses. -/
def CCondition.isMatch : CCondition → Int → Bool
  | .gt n, value => value > n
  | .gte n, value => value ≥ n
  | .lt n, value => value < n
  | .lte n, value => value ≤ n
  | .eq n, value => value = n

/-- `ConditionOrList`. -/
inductive ConditionOrList where
  | condition (c : CCondition)
  | list (l : List CCondition)
deriving DecidableEq, Repr

/-- `EventCount` (the serde payload of the `event_count` correlation
type). -/
structure EventCountSpec where
  condition : ConditionOrList
deriving DecidableEq, Repr

/-- `ValueCondition`. -/
structure ValueCondition where
  condition : CCondition
  field : String
deriving DecidableEq, Repr

/-- `ValueCount` (the serde payload of the `value_count` correlation
type). -/
structure ValueCountSpec where
  condition : ValueCondition
deriving DecidableEq, Repr

/-- `CorrelationType`. -/
inductive CorrelationType where
  | eventCount (c : EventCountSpec)
  | valueCount (c : ValueCountSpec)
  | temporal
  | temporalOrdered
deriving DecidableEq, Repr

/-- `Correlation` of `src/correlation/serde.rs`, restricted to the
fields `Correlation::eval` reads.  `timespan` only parameterises the
expiry timers (driven explicitly here through the `decr` operations)
and the `state` cell is passed explicitly to `eval`. -/
structure Correlation where
  correlation_type : CorrelationType
  dependencies : List String
  group_by : List String
  id : String
deriving DecidableEq, Repr

/-- `CorrelationRule::dependencies` / the serde field `rules`: the
references to the rules this correlation depends on. -/
def Correlation.rules (c : Correlation) : List String :=
  c.dependencies

/-- `CorrelationState` of `src/correlation/state/counter.rs`: the
per-rule counter, an `EventCount` or a `ValueCount`. -/
inductive CorrelationState where
  | eventCount (m : ECMap)
  | valueCount (m : VCMap)
deriving DecidableEq, Repr

/-- The `TypeId`s compared in the dependency gate of
`Correlation::eval` (rule.rs lines 39-40): the enum `CorrelationType`
and the state structs `EventCount`/`ValueCount` imported from
`super::state` are three distinct types. -/
inductive RTypeId where
  | correlationTypeEnum
  | stateEventCount
  | stateValueCount
deriving DecidableEq, Repr

/-- `Any::type_id` on the value `self.correlation_type`: the receiver
has the enum type `CorrelationType`, so the result is the `TypeId` of
the enum itself, whichever variant it holds. -/
def CorrelationType.typeId (_ : CorrelationType) : RTypeId :=
  .correlationTypeEnum

/-- The identity of a rule as seen by `Correlation::eval`'s `prev`
list (`Arc<SigmaRule>` read only through `.id` and `.name`). -/
structure RuleRef where
  id : String
  name : Option String
deriving DecidableEq, Repr

/-- The group-key construction of `Correlation::eval` (rule.rs lines
63-77): the event's fields whose names occur in `group_by`, rendered as
`"name:serialized value"`, sorted ascending and joined with commas.
Returns `none` when `event.as_object()` is `None`. -/
def Correlation.groupkey (c : Correlation) (event : Json) : Option String :=
  match event.asObject with
  | none => none
  | some fields =>
      some (String.intercalate ","
        (sortStrings ((fields.filter (fun kv => c.group_by.contains kv.1)).map
          (fun kv => kv.1 ++ ":" ++ kv.2.toString))))

/-- The candidate collection of the `Temporal` branch (rule.rs lines
137-154): previously matched rules that are named by `dependencies`
(by name or by id), projected to their ids. -/
def temporalCandidates (deps : List String) (prev : List RuleRef) : List String :=
  prev.filterMap fun r =>
    match r.name with
    | some name =>
        if deps.contains name then some r.id
        else if deps.contains r.id then some r.id
        else none
    | none => if deps.contains r.id then some r.id else none

/-- The `(prev_ids, prev_names)` unzip of the `TemporalOrdered` branch
(rule.rs lines 167-186). -/
def temporalOrderedPrev (deps : List String) (prev : List RuleRef) :
    List (String × Option String) :=
  prev.filterMap fun r =>
    match r.name with
    | some name =>
        if deps.contains name then some (r.id, some name)
        else if deps.contains r.id then some (r.id, some name)
        else none
    | none => if deps.contains r.id then some (r.id, none) else none

/-- The dependency loop of the `TemporalOrdered` branch (rule.rs lines
188-201): visit the dependencies in declared order; a dependency that
is neither in state nor among the prior matches aborts with `false`,
keeping the increments already performed. -/
def temporalOrderedLoop (groupkey : String) (prevIds : List String)
    (prevNames : List (Option String)) : List String → VCMap → Bool × VCMap
  | [], m => (true, m)
  | d :: ds, m =>
      if VCMap.hasEntry m groupkey d ∨ prevIds.contains d then
        temporalOrderedLoop groupkey prevIds prevNames ds
          (VCMap.incrEntry m (groupkey, d))
      else if prevNames.contains (some d) then
        match (prevNames.findIdx? (fun n => n = some d)).bind
            (fun i => prevIds.get? i) with
        | some id =>
            temporalOrderedLoop groupkey prevIds prevNames ds
              (VCMap.incrEntry m (groupkey, id))
        | none => (false, m)
      else (false, m)

/-- `Correlation::eval` of `src/correlation/rule.rs`, with the
`OnceLock` state passed and returned explicitly (the uninitialized
state and the counter whose kind disagrees with `correlation_type`
yield `false`, as in the source's early returns).  The dependency gate
at the top compares `TypeId`s exactly as the source does. -/
def Correlation.eval (c : Correlation) (event : Json) (prev : List RuleRef)
    (state : CorrelationState) : Bool × CorrelationState :=
  if (c.correlation_type.typeId = RTypeId.stateEventCount ∨
      c.correlation_type.typeId = RTypeId.stateValueCount) ∧
      ¬ (c.dependencies.all fun d => prev.any fun r =>
          r.id == d || (match r.name with | some name => name == d | none => false))
  then (false, state)
  else
    match c.groupkey event with
    | none => (false, state)
    | some groupkey =>
      if groupkey.length = 0 then (false, state)
      else
        match c.correlation_type, state with
        | .eventCount ec, .eventCount m =>
            let m := ECMap.incrEntry m groupkey
            let count := ECMap.count m groupkey
            let conds := match ec.condition with
              | .condition cond => [cond]
              | .list l => l
            (conds.all fun cond => cond.isMatch count, .eventCount m)
        | .eventCount _, _ => (false, state)
        | .valueCount vc, .valueCount m =>
            (match event.getKey vc.condition.field with
             | some (.str v) => some v
             | some (.num v) => some (ToString.toString v)
             | _ => none).elim (false, state) fun value =>
              let m := VCMap.incrEntry m (groupkey, value)
              let count := VCMap.count m groupkey
              (vc.condition.condition.isMatch count, .valueCount m)
        | .valueCount _, _ => (false, state)
        | .temporal, .valueCount m =>
            let m := (temporalCandidates c.dependencies prev).foldl
              (fun acc cand => VCMap.incrEntry acc (groupkey, cand)) m
            (c.dependencies.all fun d => VCMap.hasEntry m groupkey d,
             .valueCount m)
        | .temporal, _ => (false, state)
        | .temporalOrdered, .valueCount m =>
            let pairs := temporalOrderedPrev c.dependencies prev
            let r := temporalOrderedLoop groupkey (pairs.map Prod.fst)
              (pairs.map Prod.snd) c.dependencies m
            (r.1, .valueCount r.2)
        | .temporalOrdered, _ => (false, state)

end CorrelationModel

section CorrelationClaims

/-- An `event_count` correlation requiring `gte: 2`-style matching with
one dependency, grouped by field `g` (fixture). -/
def c1Rule : Correlation := ⟨.eventCount ⟨.condition (.gte 1)⟩, ["d"], ["g"], "c1"⟩

/-- An event carrying the group-by field `g` (fixture). -/
def c1Event : Json := .obj [("g", .str "x")]

/-- C1: the claim says an event-count correlation returns false and
performs no increment when a dependency is absent from the prior-match
set.  The code's dependency gate compares the `TypeId` of the
`CorrelationType` enum with the `TypeId`s of the state structs, which
never agree, so with an empty prior-match set and a non-empty
dependency list the rule still increments its counter and matches. -/
theorem c1_eventcount_ignores_missing_dependencies :
    c1Rule.dependencies = ["d"] ∧
    c1Rule.eval c1Event [] (.eventCount []) =
      (true, .eventCount [("g:\"x\"", 1)]) := by
  exact ⟨rfl, by decide⟩

/-- Counterexample to C3: two increments with the same discriminator
`v` leave the observed count of group `g` at `2`, the multiset total,
not at `1` as the claim's distinct-discriminator reading requires. -/
theorem c3_same_discriminator_counts_twice :
    VCMap.count (VCMap.incrEntry (VCMap.incrEntry [] ("g", "v")) ("g", "v")) "g" = 2 ∧
    ¬ VCMap.count (VCMap.incrEntry (VCMap.incrEntry [] ("g", "v")) ("g", "v")) "g" = 1 := by
  decide

/-- One inner increment raises the discriminator sum of a group by one. -/
theorem VCMap.incrInner_sum (inner : List (String × Int)) (v : String) :
    ((VCMap.incrInner inner v).map Prod.snd).sum = (inner.map Prod.snd).sum + 1 := by
  induction inner with
  | nil => simp [VCMap.incrInner]
  | cons head rest ih =>
      obtain ⟨hv, hc⟩ := head
      by_cases h : hv = v <;> simp [VCMap.incrInner, h, ih] <;> ring

/-- C3 (amended): the observed count of a group is the multiset total
of increments — every `incr`, including one repeating an
already-observed discriminator, raises the group's observed count by
exactly one. -/
theorem c3_count_is_multiset_total (m : VCMap) (g v : String) :
    VCMap.count (VCMap.incrEntry m (g, v)) g = VCMap.count m g + 1 := by
  induction m with
  | nil => simp [VCMap.incrEntry, VCMap.count, List.lookup]
  | cons head rest ih =>
      obtain ⟨k, inner⟩ := head
      by_cases h : k = g
      · subst h
        simp [VCMap.incrEntry, VCMap.count, List.lookup, VCMap.incrInner_sum]
      · simp only [VCMap.incrEntry, VCMap.count, List.lookup, if_neg h] at *
        have hbeq : (g == k) = false := by
          simp [beq_iff_eq]; exact fun he => h he.symm
        simpa [hbeq] using ih

/-- An `event_count` correlation grouped by both `a` and `b` (fixture). -/
def c4Rule : Correlation := ⟨.eventCount ⟨.condition (.gte 1)⟩, ["d"], ["a", "b"], "c4"⟩

/-- An event carrying group-by field `a` but not `b` (fixture). -/
def c4Event : Json := .obj [("a", .str "1")]

/-- Counterexample to C4: with group-by list `[a, b]` and an event that
has `a` but lacks `b`, the correlation still evaluates to true (its
dependency is in the prior-match set): a missing group-by field does
not make the rule return false as long as one group-by field is
present. -/
theorem c4_partial_groupby_still_matches :
    c4Rule.group_by = ["a", "b"] ∧ c4Event.getKey "b" = none ∧
    (c4Rule.eval c4Event [⟨"d", none⟩] (.eventCount [])).1 = true := by
  exact ⟨rfl, rfl, by decide⟩

/-- C4 (amended): the correlation refuses to match only when the group
key is empty — the event is not an object or carries none of the
group-by fields; it then returns false and leaves the state untouched.
(When at least one group-by field is present, evaluation proceeds with
the partial group key.) -/
theorem c4_empty_groupkey_no_match (c : Correlation) (event : Json)
    (prev : List RuleRef) (st : CorrelationState)
    (h : c.groupkey event = none ∨ c.groupkey event = some "") :
    c.eval event prev st = (false, st) := by
  rcases h with h | h <;>
    simp [Correlation.eval, CorrelationType.typeId, h]

/-- Witness for `c4_empty_groupkey_no_match` at a concrete input: an
event with no group-by fields at all does not match. -/
theorem c4_empty_groupkey_no_match_witness :
    c4Rule.eval (.obj []) [] (.eventCount []) = (false, .eventCount []) :=
  c4_empty_groupkey_no_match c4Rule (.obj []) [] (.eventCount []) (Or.inr rfl)

/-- A `temporal` correlation over dependencies `[first-id, second-id]`
grouped by `test` (fixture mirroring the repository's temporal test). -/
def c6Temporal : Correlation :=
  ⟨.temporal, ["first-id", "second-id"], ["test"], "c6t"⟩

/-- The `temporal_ordered` variant of the same correlation (fixture). -/
def c6Ordered : Correlation :=
  ⟨.temporalOrdered, ["first-id", "second-id"], ["test"], "c6o"⟩

/-- The first dependency as a prior-match entry (fixture). -/
def c6FirstRef : RuleRef := ⟨"first-id", some "first"⟩

/-- The second dependency as a prior-match entry (fixture). -/
def c6SecondRef : RuleRef := ⟨"second-id", some "second"⟩

/-- An event in group `test: yes` matching only the first dependency
(fixture). -/
def c6EventFirst : Json := .obj [("test", .str "yes"), ("first", .str "firstvalue")]

/-- An event in the same group matching only the second dependency
(fixture). -/
def c6EventSecond : Json := .obj [("test", .str "yes"), ("second", .str "secondvalue")]

/-- C6: with dependencies `[first, second]` in one group, `temporal`
does not match on the out-of-order first delivery but matches on the
second; `temporal_ordered` matches on neither event of the
out-of-order sequence, and matches on the second event of the in-order
sequence. -/
theorem c6_temporal_vs_temporal_ordered :
    (c6Temporal.eval c6EventSecond [c6SecondRef] (.valueCount [])).1 = false ∧
    (c6Temporal.eval c6EventFirst [c6FirstRef]
      (c6Temporal.eval c6EventSecond [c6SecondRef] (.valueCount [])).2).1 = true ∧
    (c6Ordered.eval c6EventSecond [c6SecondRef] (.valueCount [])).1 = false ∧
    (c6Ordered.eval c6EventFirst [c6FirstRef]
      (c6Ordered.eval c6EventSecond [c6SecondRef] (.valueCount [])).2).1 = false ∧
    (c6Ordered.eval c6EventFirst [c6FirstRef] (.valueCount [])).1 = false ∧
    (c6Ordered.eval c6EventSecond [c6SecondRef]
      (c6Ordered.eval c6EventFirst [c6FirstRef] (.valueCount [])).2).1 = true := by
  decide

end CorrelationClaims

section ConditionModel
/-!  `src/detection/condition.rs`: the condition AST and its evaluator
`is_match`.  Glob patterns are compiled with `glob::Pattern::new` and
matched with `Pattern::matches`, both modelled from the `glob` crate
(0.3): compilation fails on a wildcard run of three or more stars, on
a `**` that does not stand alone as a path component, and on a `[`
without a well-formed character class; matching follows `matches_from`
under the default `MatchOptions` that `Pattern::matches` fixes
(`require_literal_separator` and `require_literal_leading_dot` off,
`case_sensitive` on), including the recursive-wildcard separator logic
and the fall-through of an exhausted input to the remaining tokens.
Both functions are fuelled so that they compute by structural
recursion; the supplied fuel strictly exceeds the recursion depth. -/

/-- `CharSpecifier`: one element of a `[...]` character class. -/
inductive CharSpecifier where
  | single (c : Char)
  | range (lo hi : Char)
deriving DecidableEq, Repr

/-- `parse_char_specifiers`: a `-` with a character on either side
forms a range, any other character stands for itself. -/
def parseCharSpecifiers : List Char → List CharSpecifier
  | a :: '-' :: b :: rest => .range a b :: parseCharSpecifiers rest
  | a :: rest => .single a :: parseCharSpecifiers rest
  | [] => []

/-- `in_char_specifiers` under case-sensitive matching. -/
def inCharSpecifiers (specs : List CharSpecifier) (c : Char) : Bool :=
  specs.any fun s =>
    match s with
    | .single sc => sc = c
    | .range lo hi => decide (lo ≤ c) && decide (c ≤ hi)

/-- One token of a compiled glob pattern (`PatternToken`). -/
inductive GlobToken where
  | char (c : Char)
  | anyChar
  | anySequence
  | anyRecursiveSequence
  | anyWithin (specs : List CharSpecifier)
  | anyExcept (specs : List CharSpecifier)
deriving DecidableEq, Repr

/-- `glob::Pattern::new`, fuelled (every step consumes at least one
character, so a fuel exceeding the pattern length never runs out).
`compStart` records whether the position begins the pattern or follows
a `/` — the positions where a `**` may open a path component.  The
error returns (`none`) are the crate's: a run of three or more `*`
(`ERROR_WILDCARDS`), a `**` that is not a whole component
(`ERROR_RECURSIVE_WILDCARDS`, e.g. `s**`), and a `[` without a closed
class (`ERROR_INVALID_RANGE`); the `/` after a component `**` is
consumed with it. -/
def globParseF : Nat → Bool → List Char → Option (List GlobToken)
  | 0, _, _ => none
  | _ + 1, _, [] => some []
  | fuel + 1, _, '?' :: rest =>
      (globParseF fuel false rest).map fun t => .anyChar :: t
  | fuel + 1, compStart, '*' :: rest =>
      (match rest with
       | '*' :: '*' :: _ => none
       | '*' :: rest2 =>
           if compStart then
             match rest2 with
             | [] => some [.anyRecursiveSequence]
             | '/' :: rest3 =>
                 (globParseF fuel true rest3).map fun t =>
                   .anyRecursiveSequence :: t
             | _ => none
           else none
       | _ => (globParseF fuel false rest).map fun t => .anySequence :: t)
  | fuel + 1, _, '[' :: rest =>
      (match rest with
       | '!' :: rest1 =>
           if 2 ≤ rest1.length then
             match (rest1.drop 1).findIdx? (fun c => c == ']') with
             | some j =>
                 (globParseF fuel false (rest1.drop (j + 2))).map fun t =>
                   .anyExcept (parseCharSpecifiers (rest1.take (j + 1))) :: t
             | none => none
           else none
       | _ =>
           if 2 ≤ rest.length then
             match (rest.drop 1).findIdx? (fun c => c == ']') with
             | some j =>
                 (globParseF fuel false (rest.drop (j + 2))).map fun t =>
                   .anyWithin (parseCharSpecifiers (rest.take (j + 1))) :: t
             | none => none
           else none)
  | fuel + 1, _, c :: rest =>
      (globParseF fuel (c = '/') rest).map fun t => .char c :: t

/-- `glob::Pattern::new` on strings; `none` is a `PatternError`. -/
def globCompile (pat : String) : Option (List GlobToken) :=
  globParseF (pat.length + 1) true pat.data

/-- `MatchResult` of the `glob` crate. -/
inductive GlobMatchResult where
  | matched
  | subPatternDoesntMatch
  | entirePatternDoesntMatch
deriving DecidableEq, Repr

mutual
/-- `Pattern::matches_from` under the default `MatchOptions`, fuelled:
walk the token list, consuming one character for a literal, `?` or a
class, and branching for the sequence tokens (an empty match first,
then the consuming loop); an exhausted pattern matches exactly the
exhausted input. -/
def matchFromF : Nat → List GlobToken → Bool → List Char → GlobMatchResult
  | 0, _, _, _ => .subPatternDoesntMatch
  | _ + 1, [], _, file =>
      if file.isEmpty then .matched else .subPatternDoesntMatch
  | fuel + 1, tok :: rest, followsSep, file =>
      match tok with
      | .anySequence | .anyRecursiveSequence =>
          (match matchFromF fuel rest followsSep file with
           | .subPatternDoesntMatch =>
               seqConsumeF fuel (tok = .anyRecursiveSequence) rest followsSep file
           | m => m)
      | _ =>
          match file with
          | [] => .entirePatternDoesntMatch
          | c :: file2 =>
              let isMatch := match tok with
                | .anyChar => true
                | .anyWithin specs => inCharSpecifiers specs c
                | .anyExcept specs => !inCharSpecifiers specs c
                | .char c2 => c = c2
                | _ => false
              if isMatch then matchFromF fuel rest (c = '/') file2
              else .subPatternDoesntMatch

/-- The consuming loop of the sequence arms of `matches_from`: a
recursive `**` retries the rest of the pattern only after a separator,
a `*` after every character; when the input is exhausted the loop
falls through to the remaining tokens. -/
def seqConsumeF : Nat → Bool → List GlobToken → Bool → List Char → GlobMatchResult
  | 0, _, _, _, _ => .subPatternDoesntMatch
  | fuel + 1, _, rest, followsSep, [] => matchFromF fuel rest followsSep []
  | fuel + 1, isRec, rest, _, c :: file2 =>
      let followsSep := c = '/'
      if isRec && !followsSep then seqConsumeF fuel isRec rest followsSep file2
      else
        match matchFromF fuel rest followsSep file2 with
        | .subPatternDoesntMatch => seqConsumeF fuel isRec rest followsSep file2
        | m => m
end

/-- `Pattern::matches` on a compiled pattern: run `matches_from` from
the start of the input (which counts as following a separator) and
compare with `Match`.  Every recursive call consumes fuel while the
token list or the input shrinks at least every second call, so twice
the combined length plus two bounds the depth. -/
def globTokMatch (tokens : List GlobToken) (name : List Char) : Bool :=
  match matchFromF (2 * (tokens.length + name.length) + 2) tokens true name with
  | .matched => true
  | _ => false

/-- Pattern matching as a relation between pattern and name strings;
a pattern the crate rejects matches nothing. -/
def globMatches (pat name : String) : Bool :=
  match globCompile pat with
  | some p => globTokMatch p name.data
  | none => false

/-- `XOfType`. -/
inductive XOfType where
  | nOf (n : Int)
  | allOf
deriving DecidableEq, Repr

/-- `BoolOp`. -/
inductive CBoolOp where
  | or
  | and
deriving DecidableEq, Repr

/-- `ConditionNode`. -/
inductive ConditionNode where
  | identifier (id : String)
  | not (inner : ConditionNode)
  | xof (t : XOfType) (inner : ConditionNode)
  | boolOp (lhs : ConditionNode) (op : CBoolOp) (rhs : ConditionNode)
deriving DecidableEq, Repr

/-- `statement.get(id).copied().unwrap_or(false)`: the truth value of a
selection name, `false` when the name is absent. -/
def stmtGet (statement : List (String × Bool)) (id : String) : Bool :=
  (statement.lookup id).getD false

/-- `is_match` of `src/detection/condition.rs`: evaluate a condition
node against the selection truth table. -/
def condIsMatch (statement : List (String × Bool)) : ConditionNode → Bool
  | .identifier id => stmtGet statement id
  | .not inner => !condIsMatch statement inner
  | .xof (.nOf n) inner =>
      match inner with
      | .identifier pat =>
          (match globCompile pat with
           | some p =>
              (((statement.map Prod.fst).filter fun k =>
                  globTokMatch p k.data && stmtGet statement k).length : Int) ≥ n
           | none => false)
      | _ => false
  | .xof .allOf inner =>
      match inner with
      | .identifier pat =>
          (match globCompile pat with
           | some p =>
              ((statement.map Prod.fst).filter fun k =>
                  globTokMatch p k.data).all fun k => stmtGet statement k
           | none => false)
      | _ => false
  | .boolOp lhs .or rhs => condIsMatch statement lhs || condIsMatch statement rhs
  | .boolOp lhs .and rhs => condIsMatch statement lhs && condIsMatch statement rhs

end ConditionModel

section ConditionClaims

/-- Looking up the key of the head entry yields the head value. -/
theorem stmtGet_cons_self (k : String) (b : Bool) (rest : List (String × Bool)) :
    stmtGet ((k, b) :: rest) k = b := by
  simp [stmtGet, List.lookup]

/-- Looking up a different key skips the head entry. -/
theorem stmtGet_cons_ne (k k' : String) (b : Bool) (rest : List (String × Bool))
    (h : k' ≠ k) : stmtGet ((k, b) :: rest) k' = stmtGet rest k' := by
  simp [stmtGet, List.lookup, beq_eq_false_iff_ne.mpr h]

/-- With duplicate-free keys, looking up an entry's key finds its value. -/
theorem lookup_eq_of_nodup (st : List (String × Bool))
    (hnd : (st.map Prod.fst).Nodup) (e : String × Bool) (he : e ∈ st) :
    st.lookup e.1 = some e.2 := by
  induction st with
  | nil => cases he
  | cons head rest ih =>
      rw [List.map_cons] at hnd
      have hk : head.1 ∉ rest.map Prod.fst := (List.nodup_cons.mp hnd).1
      have hnd' := (List.nodup_cons.mp hnd).2
      rcases List.mem_cons.mp he with rfl | he'
      · simp [List.lookup]
      · have hne : e.1 ≠ head.1 := by
          intro h
          exact hk (h ▸ List.mem_map_of_mem Prod.fst he')
        obtain ⟨hk1, hb⟩ := head
        simp only [List.lookup, beq_eq_false_iff_ne.mpr hne]
        exact ih hnd' he'

/-- With duplicate-free keys, counting over the key list with lookups
equals counting over the entries themselves. -/
theorem c7_count_eq (p : String → Bool) (st : List (String × Bool))
    (hnd : (st.map Prod.fst).Nodup) :
    ((st.map Prod.fst).filter fun k => p k && stmtGet st k).length =
      (st.filter fun e => p e.1 && e.2).length := by
  induction st with
  | nil => rfl
  | cons head rest ih =>
      obtain ⟨k, b⟩ := head
      rw [List.map_cons] at hnd
      have hk : k ∉ rest.map Prod.fst := (List.nodup_cons.mp hnd).1
      have hnd' := (List.nodup_cons.mp hnd).2
      have hcong : ((rest.map Prod.fst).filter fun x => p x && stmtGet ((k, b) :: rest) x)
          = (rest.map Prod.fst).filter fun x => p x && stmtGet rest x := by
        apply List.filter_congr
        intro x hx
        have hxk : x ≠ k := fun h => hk (h ▸ hx)
        rw [stmtGet_cons_ne _ _ _ _ hxk]
      rw [List.map_cons, List.filter_cons, List.filter_cons, stmtGet_cons_self, hcong]
      by_cases hpb : (p k && b) = true
      · simp [hpb, ih hnd']
      · simp [hpb, ih hnd']

/-- With duplicate-free keys, the `all` over matching keys with lookups
is the universal statement over the entries themselves. -/
theorem c7_all_eq (p : String → Bool) (st : List (String × Bool))
    (hnd : (st.map Prod.fst).Nodup) :
    ((((st.map Prod.fst).filter fun k => p k).all fun k => stmtGet st k) = true) ↔
      ∀ e ∈ st, p e.1 = true → e.2 = true := by
  simp only [List.all_eq_true]
  constructor
  · intro h e he hpe
    have hx : e.1 ∈ (st.map Prod.fst).filter (fun k => p k) :=
      List.mem_filter.mpr ⟨List.mem_map_of_mem _ he, hpe⟩
    have hv := h e.1 hx
    rwa [stmtGet, lookup_eq_of_nodup st hnd e he, Option.getD_some] at hv
  · intro h x hx
    obtain ⟨hmem, hpx⟩ := List.mem_filter.mp hx
    obtain ⟨e, he, rfl⟩ := List.mem_map.mp hmem
    rw [stmtGet, lookup_eq_of_nodup st hnd e he, Option.getD_some]
    exact h e he hpx

/-- C7: over a truth table with duplicate-free selection names, an
identifier absent from the table evaluates to false; `NOf(k, pattern)`
is true iff at least `k` names matching the glob pattern are assigned
true; and `AllOf(pattern)` is true iff every matching name is assigned
true (vacuously true when none matches). -/
theorem c7_condition_semantics (st : List (String × Bool)) (id pat : String)
    (n : Int) (ptoks : List GlobToken)
    (hnd : (st.map Prod.fst).Nodup) (hpat : globCompile pat = some ptoks) :
    (st.lookup id = none → condIsMatch st (.identifier id) = false) ∧
    (condIsMatch st (.xof (.nOf n) (.identifier pat)) = true ↔
      n ≤ ((st.filter fun e => globMatches pat e.1 && e.2).length : Int)) ∧
    (condIsMatch st (.xof .allOf (.identifier pat)) = true ↔
      ∀ e ∈ st, globMatches pat e.1 = true → e.2 = true) := by
  have hgm : ∀ x : String, globMatches pat x = globTokMatch ptoks x.data := by
    intro x
    unfold globMatches
    rw [hpat]
  refine ⟨?_, ?_, ?_⟩
  · intro h
    simp [condIsMatch, stmtGet, h]
  · simp only [condIsMatch, hpat]
    have hcnt := c7_count_eq (fun k => globTokMatch ptoks k.data) st hnd
    rw [hcnt]
    have hfc : (st.filter fun e => globTokMatch ptoks e.1.data && e.2)
        = st.filter fun e => globMatches pat e.1 && e.2 := by
      apply List.filter_congr
      intro e _
      rw [hgm]
    rw [hfc]
    constructor
    · intro h
      exact ge_iff_le.mp (by exact_mod_cast of_decide_eq_true (by exact_mod_cast h))
    · intro h
      exact decide_eq_true (ge_iff_le.mpr h)
  · simp only [condIsMatch, hpat]
    have hall := c7_all_eq (fun k => globTokMatch ptoks k.data) st hnd
    rw [hall]
    constructor
    · intro h e he hpe
      exact h e he ((hgm e.1).symm.trans hpe)
    · intro h e he hpe
      exact h e he ((hgm e.1).trans hpe)

/-- Witness for `c7_condition_semantics` on a concrete truth table:
`1 of s*` holds, `all of z*` holds vacuously, and an absent identifier
is false. -/
theorem c7_condition_semantics_witness :
    condIsMatch [("s1", true), ("s2", false)] (.xof (.nOf 1) (.identifier "s*")) = true ∧
    condIsMatch [("s1", true), ("s2", false)] (.xof .allOf (.identifier "z*")) = true ∧
    condIsMatch [("s1", true), ("s2", false)] (.identifier "zzz") = false := by
  refine ⟨?_, ?_, ?_⟩
  · exact (c7_condition_semantics [("s1", true), ("s2", false)] "zzz" "s*" 1
      [.char 's', .anySequence] (by decide) rfl).2.1.mpr (by decide)
  · exact (c7_condition_semantics [("s1", true), ("s2", false)] "zzz" "z*" 1
      [.char 'z', .anySequence] (by decide) rfl).2.2.mpr (by decide)
  · exact (c7_condition_semantics [("s1", true), ("s2", false)] "zzz" "z*" 1
      [.char 'z', .anySequence] (by decide) rfl).1 rfl

/-- `Pattern::new` rejects a `**` that is not a whole path component
and any run of three or more stars; `is_match` then returns false for
`NOf`/`AllOf` over such patterns (no vacuous truth), while a lone `**`
compiles to the recursive wildcard. -/
theorem globCompile_wildcard_errors :
    globCompile "z**" = none ∧
    globCompile "***" = none ∧
    globCompile "**" = some [.anyRecursiveSequence] ∧
    condIsMatch [("z1", true)] (.xof .allOf (.identifier "z**")) = false ∧
    condIsMatch [("z1", true)] (.xof (.nOf 0) (.identifier "z**")) = false := by
  decide

end ConditionClaims

section SelectionModel
/-!  `src/detection/selection.rs`.  Strings are compared through their
character lists; `to_lowercase` is modelled by `Char.toLower`
(ASCII — the data of every claim).  A compiled regex is modelled by its
match function; IP addresses are modelled for IPv4 (IPv6 literals are
outside the scope of every claim and fail to parse in this model). -/

/-- `str::starts_with`. -/
def strStartsWith (s p : String) : Bool :=
  p.data.isPrefixOf s.data

/-- `str::ends_with`. -/
def strEndsWith (s p : String) : Bool :=
  p.data.isSuffixOf s.data

/-- Substring occurrence on character lists (`str::contains`). -/
def listInfix (p : List Char) : List Char → Bool
  | [] => p.isPrefixOf []
  | c :: t => p.isPrefixOf (c :: t) || listInfix p t

/-- `str::contains` with a string needle. -/
def strContainsSub (s p : String) : Bool :=
  listInfix p.data s.data

/-- `str::to_lowercase` (ASCII). -/
def strToLower (s : String) : String :=
  ⟨s.data.map Char.toLower⟩

/-- `&v[n..]` on character boundaries. -/
def strDrop (s : String) (n : Nat) : String :=
  ⟨s.data.drop n⟩

/-- `&v[..v.len() - 1]` on character boundaries; the selection
evaluator reaches it only behind a `starts_with`/`ends_with` test, so
the string is non-empty here.  (The crossing slice `&v[1..0]` that the
value `"*"` produces in the both-star branch is modelled as an
explicit panic outcome in `defaultFieldMatch`.) -/
def strDropLast (s : String) : String :=
  ⟨s.data.dropLast⟩

/-- `str::split` with a single-character separator, on character lists
(an empty input yields one empty segment, as in Rust). -/
def splitOnChar (sep : Char) : List Char → List (List Char)
  | [] => [[]]
  | c :: t =>
      if c = sep then [] :: splitOnChar sep t
      else
        match splitOnChar sep t with
        | h :: rest => (c :: h) :: rest
        | [] => [[c]]

/-- `str::split` packaged on strings. -/
def strSplitOn (sep : Char) (s : String) : List String :=
  (splitOnChar sep s.data).map fun l => ⟨l⟩

/-- Decimal digit parse (`u64`-style, used as a building block). -/
def parseDecNat (s : List Char) : Option Nat :=
  if s.length = 0 ∨ ¬ s.all Char.isDigit then none
  else some (s.foldl (fun acc c => acc * 10 + (c.toNat - 48)) 0)

/-- `str::parse::<i64>`: optional sign, decimal digits, `i64` range. -/
def parseI64 (s : String) : Option Int :=
  match s.data with
  | '-' :: rest =>
      (parseDecNat rest).bind fun n =>
        if n ≤ 2 ^ 63 then some (-(n : Int)) else none
  | '+' :: rest =>
      (parseDecNat rest).bind fun n =>
        if n < 2 ^ 63 then some (n : Int) else none
  | l =>
      (parseDecNat l).bind fun n =>
        if n < 2 ^ 63 then some (n : Int) else none

/-- `IpAddr::from_str` for dotted-quad IPv4, as a 32-bit number. -/
def parseIpv4 (s : String) : Option Nat :=
  match (strSplitOn '.' s).mapM (fun p => parseDecNat p.data) with
  | some [a, b, c, d] =>
      if a ≤ 255 ∧ b ≤ 255 ∧ c ≤ 255 ∧ d ≤ 255 then
        some (((a * 256 + b) * 256 + c) * 256 + d)
      else none
  | _ => none

/-- `cidr::AnyIpCidr` (IPv4 fragment): the `any` network or a base
address with a prefix length. -/
inductive AnyIpCidr where
  | any
  | v4 (base : Nat) (len : Nat)
deriving DecidableEq, Repr

/-- `cidr::AnyIpCidr::from_str`: `"any"`, a `base/len` network with all
host bits zero, or a bare address as a `/32`. -/
def AnyIpCidr.fromStr (s : String) : Option AnyIpCidr :=
  if s = "any" then some .any
  else
    match strSplitOn '/' s with
    | [ip] => (parseIpv4 ip).map fun a => .v4 a 32
    | [ip, len] =>
        (parseIpv4 ip).bind fun a =>
          (parseDecNat len.data).bind fun l =>
            if l ≤ 32 ∧ a % 2 ^ (32 - l) = 0 then some (.v4 a l) else none
    | _ => none

/-- `AnyIpCidr::contains`. -/
def AnyIpCidr.containsIp : AnyIpCidr → Nat → Bool
  | .any, _ => true
  | .v4 base len, ip => base / 2 ^ (32 - len) = ip / 2 ^ (32 - len)

/-- `AnyIpCidr::first_address` (`None` for `any`). -/
def AnyIpCidr.firstAddress : AnyIpCidr → Option Nat
  | .any => none
  | .v4 base _ => some base

/-- `AnyIpCidr::last_address` (`None` for `any`). -/
def AnyIpCidr.lastAddress : AnyIpCidr → Option Nat
  | .any => none
  | .v4 base len => some (base + (2 ^ (32 - len) - 1))

/-- `get_terminal_from_dotted_path`: resolve a dotted path against the
event, `None` as soon as a segment is missing. -/
def get_terminal_from_dotted_path (path : String) (log : Json) : Option Json :=
  (strSplitOn '.' path).foldl (fun acc k => acc.bind fun j => j.getKey k) (some log)

/-- `Base64Modifier`. -/
inductive Base64Mod where
  | utf16le
  | utf16be
  | utf16
  | wide
deriving DecidableEq, Repr

/-- `Modifier` of `src/detection/selection.rs`.  A compiled `Regex` is
carried as its match function. -/
inductive Modifier where
  | all
  | startsWith
  | endsWith
  | contains
  | existsMod
  | cased
  | re (compiled : Option (String → Bool))
  | base64 (m : Option Base64Mod)
  | base64Offset
  | lt
  | lte
  | gt
  | gte
  | cidr
  | expand
  | fieldRef

/-- `i64` extraction for the numeric comparators:
`log.as_i64().or_else(|| log.as_str().and_then(|s| s.parse().ok()))`. -/
def Json.asI64OrParse : Json → Option Int
  | .num n => some n
  | .str s => parseI64 s
  | _ => none

/-- `Modifier::eval`: evaluate one modifier against the resolved field
and the full event (`Base64`, `Base64Offset` and `Expand` are reserved
and return false in the source). -/
def Modifier.eval (m : Modifier) (key : String) (value : Json) (fullLog : Json) : Bool :=
  let log := (get_terminal_from_dotted_path key fullLog).getD .null
  match m with
  | .all =>
      match log with
      | .arr logArr =>
          (match value with
           | .arr vs => vs.all fun v => logArr.any fun lv => Json.beq lv v
           | _ => false)
      | _ => false
  | .startsWith =>
      match value, log with
      | .str v, .str l => strStartsWith l v
      | _, _ => false
  | .endsWith =>
      match value, log with
      | .str v, .str l => strEndsWith l v
      | _, _ => false
  | .contains =>
      match value, log with
      | .str v, .str l => strContainsSub l v
      | _, _ => false
  | .existsMod =>
      match log with
      | .null => false
      | _ => true
  | .cased =>
      match value, log with
      | .str v, .str l => l = v
      | _, _ => false
  | .re (some f) =>
      match log with
      | .str l => f l
      | _ => false
  | .re none => false
  | .base64 _ => false
  | .base64Offset => false
  | .lt =>
      match value with
      | .num v => (log.asI64OrParse.map fun n => decide (n < v)).getD false
      | _ => false
  | .lte =>
      match value with
      | .num v => (log.asI64OrParse.map fun n => decide (n ≤ v)).getD false
      | _ => false
  | .gt =>
      match value with
      | .num v => (log.asI64OrParse.map fun n => decide (n > v)).getD false
      | _ => false
  | .gte =>
      match value with
      | .num v => (log.asI64OrParse.map fun n => decide (n ≥ v)).getD false
      | _ => false
  | .cidr =>
      match value with
      | .str vs =>
          match AnyIpCidr.fromStr vs with
          | some v =>
              (match log with
               | .str l =>
                   (match parseIpv4 l with
                    | some ip => v.containsIp ip
                    | none =>
                        match AnyIpCidr.fromStr l with
                        | some target =>
                            (match target.firstAddress, target.lastAddress with
                             | some first, some last =>
                                 v.containsIp first && v.containsIp last
                             | _, _ => false)
                        | none => false)
               | _ => false)
          | none => false
      | _ => false
  | .expand => false
  | .fieldRef =>
      match value with
      | .str rhs =>
          (match get_terminal_from_dotted_path rhs fullLog with
           | some rv => Json.beq log rv
           | none => false)
      | _ => false

/-- `Field` of `src/detection/selection.rs` (named `SField` here since
`Field` is taken by Mathlib): a dotted path, the predicate values and
the modifier pipeline. -/
structure SField where
  key : String
  values : List Json
  modifiers : List Modifier

/-- `MatchType`. -/
inductive MatchType where
  | field (f : SField)
  | exact (s : String)

/-- `Selection`. -/
structure Selection where
  items : List MatchType

/-- The outcome of evaluating a selection against an event: a boolean,
or a Rust panic — reachable in the zero-modifier matcher, where the
slice `&v[1..v.len() - 1]` has crossing bounds when `v` is exactly
`"*"`. -/
inductive EvalOutcome where
  | ok (b : Bool)
  | panic
deriving DecidableEq, Repr

/-- `Iterator::any` over a closure that can panic: short-circuit on the
first true; a panic propagates when its element is reached. -/
def anyOutcome {α : Type} : List α → (α → EvalOutcome) → EvalOutcome
  | [], _ => .ok false
  | x :: xs, f =>
      match f x with
      | .panic => .panic
      | .ok true => .ok true
      | .ok false => anyOutcome xs f

/-- `Iterator::all` over a closure that can panic: short-circuit on the
first false; a panic propagates when its element is reached. -/
def allOutcome {α : Type} : List α → (α → EvalOutcome) → EvalOutcome
  | [], _ => .ok true
  | x :: xs, f =>
      match f x with
      | .panic => .panic
      | .ok false => .ok false
      | .ok true => allOutcome xs f

/-- The zero-modifier arm of `Selection::is_match` (the default
matcher): case-insensitive string comparison with leading/trailing `*`
wildcards, numeric equality, and `null` matching an unresolvable path.
In the both-star branch the source slices `&v[1..v.len() - 1]`; for
`v = "*"` (length one, so the bounds cross as `1..0`) this panics,
modelled by the explicit length guard. -/
def defaultFieldMatch (values : List Json) (key : String) (log : Json) : EvalOutcome :=
  anyOutcome values fun value =>
    match get_terminal_from_dotted_path key log with
    | some (.str logvalue) =>
        (match value with
         | .str v =>
             if strStartsWith v "*" then
               if strEndsWith v "*" then
                 if v.length < 2 then .panic
                 else .ok (strContainsSub (strToLower logvalue)
                   (strToLower (strDropLast (strDrop v 1))))
               else
                 .ok (strEndsWith (strToLower logvalue) (strToLower (strDrop v 1)))
             else if strEndsWith v "*" then
               .ok (strStartsWith (strToLower logvalue) (strToLower (strDropLast v)))
             else
               .ok (strToLower logvalue = strToLower v)
         | _ => .ok false)
    | some (.num logvalue) =>
        (match value with
         | .num v => .ok (logvalue = v)
         | _ => .ok false)
    | none =>
        (match value with
         | .null => .ok true
         | _ => .ok false)
    | some _ => .ok false

/-- `Selection::is_match`: every item must hold; an exact item is a
substring test on a string event, a field item dispatches on the
modifier count (zero: default matcher, which can panic; otherwise
every modifier on the single value or on the value array). -/
def Selection.is_match (sel : Selection) (log : Json) : EvalOutcome :=
  allOutcome sel.items fun item =>
    match item with
    | .exact s =>
        .ok (match log with
         | .str field => strContainsSub field s
         | _ => false)
    | .field f =>
        match f.modifiers.length with
        | 0 => defaultFieldMatch f.values f.key log
        | _ + 1 =>
            .ok (f.modifiers.all fun m =>
              match f.values.length with
              | 0 => false
              | 1 =>
                  (match f.values.head? with
                   | some v => m.eval f.key v log
                   | none => false)
              | _ + 2 => m.eval f.key (.arr f.values) log)

end SelectionModel

section SelectionClaims

/-- `listInfix` decides substring occurrence. -/
theorem listInfix_iff (p l : List Char) : listInfix p l = true ↔ p <:+: l := by
  induction l with
  | nil =>
      simp [listInfix, List.isPrefixOf_iff_prefix, List.prefix_nil, List.infix_nil]
  | cons c t ih =>
      simp [listInfix, List.isPrefixOf_iff_prefix, ih, List.infix_cons_iff]

/-- `strStartsWith` decides list-level prefixing. -/
theorem strStartsWith_iff (s p : String) :
    strStartsWith s p = true ↔ p.data <+: s.data := by
  simp [strStartsWith, List.isPrefixOf_iff_prefix]

/-- `strEndsWith` decides list-level suffixing. -/
theorem strEndsWith_iff (s p : String) :
    strEndsWith s p = true ↔ p.data <:+ s.data := by
  simp [strEndsWith, List.isSuffixOf_iff_suffix]

/-- `strContainsSub` decides list-level substring occurrence. -/
theorem strContainsSub_iff (s p : String) :
    strContainsSub s p = true ↔ p.data <:+: s.data := by
  simp [strContainsSub, listInfix_iff]

/-- `Iterator::any` over a single element is that element's outcome. -/
theorem anyOutcome_single {α : Type} (x : α) (f : α → EvalOutcome) :
    anyOutcome [x] f = f x := by
  cases h : f x with
  | panic => simp [anyOutcome, h]
  | ok b => cases b <;> simp [anyOutcome, h]

/-- `Iterator::all` over a single element is that element's outcome. -/
theorem allOutcome_single {α : Type} (x : α) (f : α → EvalOutcome) :
    allOutcome [x] f = f x := by
  cases h : f x with
  | panic => simp [allOutcome, h]
  | ok b => cases b <;> simp [allOutcome, h]

/-- A selection with a single zero-modifier field predicate is exactly
the default matcher on that predicate. -/
theorem selSingleNoMod (key : String) (value ev : Json) :
    Selection.is_match ⟨[.field ⟨key, [value], []⟩]⟩ ev
      = defaultFieldMatch [value] key ev := by
  unfold Selection.is_match
  rw [allOutcome_single]
  rfl

/-- Counterexample to C8: a `null` predicate value matches a field that
is missing from the event, but not a field that is present with an
explicit `null` value (the `Some(Null)` resolution falls into the
evaluator's catch-all false arm). -/
theorem c8_present_null_not_matched :
    Selection.is_match ⟨[.field ⟨"a", [Json.null], []⟩]⟩ (.obj [("a", Json.null)])
      = .ok false ∧
    Selection.is_match ⟨[.field ⟨"a", [Json.null], []⟩]⟩ (.obj []) = .ok true := by
  exact ⟨by decide, by decide⟩

/-- C8 (amended): for a zero-modifier field predicate, a string value
matches case-insensitively — by equality without wildcards, as an
anchored prefix with a trailing `*`, as an anchored suffix with a
leading `*`, and as an unanchored substring with both stars and at
least two characters, while the sole value `"*"` panics on the
crossing slice `&v[1..0]`; a numeric value matches by numeric
equality; and a `null` value matches a field whose path does not
resolve, but not a field present with a `null` value. -/
theorem c8_default_matcher (key : String) (ev : Json) (v logv : String) (n m : Int) :
    (get_terminal_from_dotted_path key ev = some (.str logv) →
      strStartsWith v "*" = false → strEndsWith v "*" = false →
      (Selection.is_match ⟨[.field ⟨key, [.str v], []⟩]⟩ ev = .ok true ↔
        strToLower logv = strToLower v)) ∧
    (get_terminal_from_dotted_path key ev = some (.str logv) →
      strStartsWith v "*" = false → strEndsWith v "*" = true →
      (Selection.is_match ⟨[.field ⟨key, [.str v], []⟩]⟩ ev = .ok true ↔
        (strToLower (strDropLast v)).data <+: (strToLower logv).data)) ∧
    (get_terminal_from_dotted_path key ev = some (.str logv) →
      strStartsWith v "*" = true → strEndsWith v "*" = false →
      (Selection.is_match ⟨[.field ⟨key, [.str v], []⟩]⟩ ev = .ok true ↔
        (strToLower (strDrop v 1)).data <:+ (strToLower logv).data)) ∧
    (get_terminal_from_dotted_path key ev = some (.str logv) →
      strStartsWith v "*" = true → strEndsWith v "*" = true → 2 ≤ v.length →
      (Selection.is_match ⟨[.field ⟨key, [.str v], []⟩]⟩ ev = .ok true ↔
        (strToLower (strDropLast (strDrop v 1))).data <:+: (strToLower logv).data)) ∧
    (get_terminal_from_dotted_path key ev = some (.num m) →
      (Selection.is_match ⟨[.field ⟨key, [.num n], []⟩]⟩ ev = .ok true ↔ n = m)) ∧
    (get_terminal_from_dotted_path key ev = none →
      Selection.is_match ⟨[.field ⟨key, [Json.null], []⟩]⟩ ev = .ok true) ∧
    (get_terminal_from_dotted_path key ev = some .null →
      Selection.is_match ⟨[.field ⟨key, [Json.null], []⟩]⟩ ev = .ok false) ∧
    (get_terminal_from_dotted_path key ev = some (.str logv) →
      Selection.is_match ⟨[.field ⟨key, [.str "*"], []⟩]⟩ ev = .panic) := by
  refine ⟨?_, ?_, ?_, ?_, ?_, ?_, ?_, ?_⟩
  · intro h hs he
    rw [selSingleNoMod]
    unfold defaultFieldMatch
    rw [anyOutcome_single]
    simp only [h]
    rw [hs, he]
    simp
  · intro h hs he
    rw [selSingleNoMod]
    unfold defaultFieldMatch
    rw [anyOutcome_single]
    simp only [h]
    rw [hs, he]
    simp [strStartsWith_iff]
  · intro h hs he
    rw [selSingleNoMod]
    unfold defaultFieldMatch
    rw [anyOutcome_single]
    simp only [h]
    rw [hs, he]
    simp [strEndsWith_iff]
  · intro h hs he hlen
    rw [selSingleNoMod]
    unfold defaultFieldMatch
    rw [anyOutcome_single]
    simp only [h]
    rw [hs, he]
    have hl : ¬ (v.length < 2) := by omega
    simp [hl, strContainsSub_iff]
  · intro h
    rw [selSingleNoMod]
    unfold defaultFieldMatch
    rw [anyOutcome_single]
    simp only [h]
    simp only [EvalOutcome.ok.injEq, decide_eq_true_eq]
    omega
  · intro h
    rw [selSingleNoMod]
    unfold defaultFieldMatch
    rw [anyOutcome_single]
    simp [h]
  · intro h
    rw [selSingleNoMod]
    unfold defaultFieldMatch
    rw [anyOutcome_single]
    simp [h]
  · intro h
    rw [selSingleNoMod]
    unfold defaultFieldMatch
    rw [anyOutcome_single]
    simp only [h]
    have h1 : strStartsWith "*" "*" = true := by decide
    have h2 : strEndsWith "*" "*" = true := by decide
    have h3 : String.length "*" < 2 := by decide
    rw [h1, h2]
    simp [h3]

/-- Witness for `c8_default_matcher` at concrete inputs: the value
`AB*` matches the event string `abc` case-insensitively as a prefix,
`null` matches an event missing the field, and the sole value `*`
panics on a string field. -/
theorem c8_default_matcher_witness :
    Selection.is_match ⟨[.field ⟨"a", [.str "AB*"], []⟩]⟩ (.obj [("a", .str "abc")])
      = .ok true ∧
    Selection.is_match ⟨[.field ⟨"a", [Json.null], []⟩]⟩ (.obj [("b", .str "x")])
      = .ok true ∧
    Selection.is_match ⟨[.field ⟨"a", [.str "*"], []⟩]⟩ (.obj [("a", .str "abc")])
      = .panic := by
  refine ⟨?_, ?_, ?_⟩
  · exact ((c8_default_matcher "a" (.obj [("a", .str "abc")]) "AB*" "abc" 0 0).2.1
      rfl (by decide) (by decide)).mpr (by decide)
  · exact (c8_default_matcher "a" (.obj [("b", .str "x")]) "x" "x" 0 0).2.2.2.2.2.1 rfl
  · exact (c8_default_matcher "a" (.obj [("a", .str "abc")]) "x" "abc" 0 0).2.2.2.2.2.2.2 rfl

end SelectionClaims

section FilterModel
/-!  `src/detection/filter.rs` and the rule/collection data of
`src/rule.rs` and `src/collection.rs`.  A detection rule is carried
with the fields the filter and the collection read (its selections and
condition are evaluated by the components above and play no role
here); `HashSet<String>` is a list with membership-checked insertion,
`HashMap<Option<String>, HashSet<String>>` an association list. -/

/-- `LogSource` (the category/product/service triple; a `None` axis is
the wildcard). -/
structure LogSource where
  category : Option String
  product : Option String
  service : Option String
deriving DecidableEq, Repr

/-- `RuleType`: a detection body (of which the filter and collection
read only the log source) or a correlation body. -/
inductive RuleType where
  | detection (logsource : LogSource)
  | correlation (c : Correlation)
deriving DecidableEq, Repr

/-- `SigmaRule`, restricted to the fields the collection and filter
read: id, optional name, and the rule body. -/
structure SigmaRule where
  id : String
  name : Option String
  rule : RuleType
deriving DecidableEq, Repr

/-- `HashSet::insert` on the list model: append when absent. -/
def setInsert (s : List String) (x : String) : List String :=
  if s.contains x then s else s ++ [x]

/-- `map.entry(k).or_insert_with(HashSet::new).insert(id)`. -/
def amapInsert (m : List (Option String × List String)) (k : Option String)
    (id : String) : List (Option String × List String) :=
  match m with
  | [] => [(k, [id])]
  | (k', s) :: rest =>
      if k' = k then (k', setInsert s id) :: rest
      else (k', s) :: amapInsert rest k id

/-- `map.get(&k)` defaulted to the empty set. -/
def amapGet (m : List (Option String × List String)) (k : Option String) :
    List String :=
  match m.lookup k with
  | some s => s
  | none => []

/-- `HashSet` union on the list model (membership of either). -/
def listUnion (a b : List String) : List String :=
  a ++ b.filter (fun x => !a.contains x)

/-- `HashSet::intersection` on the list model. -/
def listInter (a b : List String) : List String :=
  a.filter (fun x => b.contains x)

/-- `Filter` of `src/detection/filter.rs` (named `LSFilter` here since
`Filter` is taken by Mathlib): one inverted index per log source axis
plus the set of all detection rule ids. -/
structure LSFilter where
  category : List (Option String × List String)
  product : List (Option String × List String)
  service : List (Option String × List String)
  all : List String
deriving DecidableEq, Repr

/-- The empty filter (`Filter::default`). -/
def LSFilter.empty : LSFilter := ⟨[], [], [], []⟩

/-- `Filter::add`: detection rules are inserted under their axis values
(key `None` for an omitted axis) and into `all`; other rules are
ignored. -/
def LSFilter.add (f : LSFilter) (rule : SigmaRule) : LSFilter :=
  match rule.rule with
  | .correlation _ => f
  | .detection ls =>
      { category := amapInsert f.category ls.category rule.id
        product := amapInsert f.product ls.product rule.id
        service := amapInsert f.service ls.service rule.id
        all := setInsert f.all rule.id }

/-- The per-axis candidate set of `Filter::filter`: for `Some(v)` the
union of the entries under `Some(v)` and under `None`; for `None` the
`all` set. -/
def axisCandidates (index : List (Option String × List String))
    (allSet : List String) (axis : Option String) : List String :=
  match axis with
  | some _ => listUnion (amapGet index axis) (amapGet index none)
  | none => allSet

/-- `Filter::filter`: intersect `all` with the three per-axis candidate
sets. -/
def LSFilter.filter (f : LSFilter) (target : LogSource) : List String :=
  listInter
    (listInter
      (listInter f.all (axisCandidates f.category f.all target.category))
      (axisCandidates f.product f.all target.product))
    (axisCandidates f.service f.all target.service)

/-- A filter built by adding every rule of a list to the empty filter. -/
def mkFilter (rules : List SigmaRule) : LSFilter :=
  rules.foldl LSFilter.add LSFilter.empty

end FilterModel

section FilterClaims

/-- Membership in the modelled `HashSet` intersection. -/
theorem mem_listInter (a b : List String) (x : String) :
    x ∈ listInter a b ↔ x ∈ a ∧ x ∈ b := by
  simp [listInter, List.mem_filter, List.elem_iff]

/-- Membership in the modelled `HashSet` union. -/
theorem mem_listUnion (a b : List String) (x : String) :
    x ∈ listUnion a b ↔ x ∈ a ∨ x ∈ b := by
  simp only [listUnion, List.mem_append, List.mem_filter, Bool.not_eq_true]
  constructor
  · rintro (h | ⟨h, _⟩)
    · exact Or.inl h
    · exact Or.inr h
  · intro h
    by_cases ha : x ∈ a
    · exact Or.inl ha
    · rcases h with h | h
      · exact absurd h ha
      · refine Or.inr ⟨h, ?_⟩
        simpa [List.elem_iff] using ha

/-- Membership after a modelled `HashSet::insert`. -/
theorem mem_setInsert (s : List String) (y x : String) :
    x ∈ setInsert s y ↔ x ∈ s ∨ x = y := by
  by_cases h : s.contains y = true
  · simp only [setInsert, h, if_pos]
    constructor
    · exact Or.inl
    · rintro (hx | rfl)
      · exact hx
      · exact List.elem_iff.mp h
  · have h' : y ∉ s := fun hy => h (List.elem_iff.mpr hy)
    simp [setInsert, h, h']

/-- Membership in an index entry after an index insertion. -/
theorem mem_amapGet_amapInsert (m : List (Option String × List String))
    (k k' : Option String) (id x : String) :
    x ∈ amapGet (amapInsert m k id) k' ↔ (k' = k ∧ x = id) ∨ x ∈ amapGet m k' := by
  induction m with
  | nil =>
      by_cases h : k' = k
      · subst h
        simp [amapInsert, amapGet, List.lookup]
      · simp [amapInsert, amapGet, List.lookup, beq_eq_false_iff_ne.mpr h, h]
  | cons head rest ih =>
      obtain ⟨k'', s⟩ := head
      simp only [amapInsert]
      by_cases h2 : k'' = k
      · rw [if_pos h2]
        subst h2
        by_cases h3 : k' = k''
        · subst h3
          simp only [amapGet, List.lookup, beq_self_eq_true]
          simp [mem_setInsert]
          tauto
        · simp only [amapGet, List.lookup, beq_eq_false_iff_ne.mpr h3]
          simp [h3]
      · rw [if_neg h2]
        by_cases h3 : k' = k''
        · subst h3
          simp only [amapGet, List.lookup, beq_self_eq_true]
          simp [h2]
        · simp only [amapGet, List.lookup, beq_eq_false_iff_ne.mpr h3]
          exact ih

/-- Invariant of filters built by `Filter::add`: every id indexed
under any axis key is also in `all`. -/
def filterWF (f : LSFilter) : Prop :=
  (∀ k x, x ∈ amapGet f.category k → x ∈ f.all) ∧
  (∀ k x, x ∈ amapGet f.product k → x ∈ f.all) ∧
  (∀ k x, x ∈ amapGet f.service k → x ∈ f.all)

/-- The empty filter satisfies the invariant. -/
theorem filterWF_empty : filterWF LSFilter.empty := by
  refine ⟨?_, ?_, ?_⟩ <;> intro k x h <;> simp [LSFilter.empty, amapGet, List.lookup] at h

/-- `Filter::add` preserves the invariant. -/
theorem filterWF_add (f : LSFilter) (rule : SigmaRule) (hwf : filterWF f) :
    filterWF (f.add rule) := by
  obtain ⟨hc, hp, hs⟩ := hwf
  match hr : rule.rule with
  | .correlation _ => simpa [LSFilter.add, hr] using ⟨hc, hp, hs⟩
  | .detection ls =>
      refine ⟨?_, ?_, ?_⟩ <;> intro k x h <;>
        simp only [LSFilter.add, hr] at h ⊢ <;>
        rw [mem_setInsert] <;>
        rcases (mem_amapGet_amapInsert _ _ _ _ _).mp h with ⟨_, rfl⟩ | hm
      · exact Or.inr rfl
      · exact Or.inl (hc _ _ hm)
      · exact Or.inr rfl
      · exact Or.inl (hp _ _ hm)
      · exact Or.inr rfl
      · exact Or.inl (hs _ _ hm)

/-- Folding `Filter::add` preserves the invariant. -/
theorem filterWF_foldl (rules : List SigmaRule) :
    ∀ f : LSFilter, filterWF f → filterWF (rules.foldl LSFilter.add f) := by
  induction rules with
  | nil => intro f hf; exact hf
  | cons r rest ih => intro f hf; exact ih _ (filterWF_add f r hf)

/-- Every built filter satisfies the invariant. -/
theorem filterWF_mkFilter (rules : List SigmaRule) : filterWF (mkFilter rules) :=
  filterWF_foldl rules LSFilter.empty filterWF_empty

/-- A detection rule whose log source declares `product: windows`
(fixture). -/
def c5WindowsRule : SigmaRule :=
  ⟨"win-rule", none, .detection ⟨none, some "windows", none⟩⟩

/-- C5: the filter query is the intersection of the three per-axis
candidate sets — a `Some(v)` axis contributes the union of the
entries indexed under `Some(v)` and under `None`, a `None` axis the
set of all detection rules; in particular the `product: windows` rule
is excluded for a `product: linux` target and included for an entirely
absent log source. -/
theorem c5_filter_characterization :
    (∀ (rules : List SigmaRule) (t : LogSource) (r : String),
      r ∈ (mkFilter rules).filter t ↔
        (r ∈ axisCandidates (mkFilter rules).category (mkFilter rules).all t.category ∧
         r ∈ axisCandidates (mkFilter rules).product (mkFilter rules).all t.product ∧
         r ∈ axisCandidates (mkFilter rules).service (mkFilter rules).all t.service)) ∧
    ((mkFilter [c5WindowsRule]).filter ⟨none, some "linux", none⟩).contains "win-rule" = false ∧
    ((mkFilter [c5WindowsRule]).filter ⟨none, none, none⟩).contains "win-rule" = true := by
  refine ⟨?_, by decide, by decide⟩
  intro rules t r
  obtain ⟨hwc, hwp, hws⟩ := filterWF_mkFilter rules
  unfold LSFilter.filter
  rw [mem_listInter, mem_listInter, mem_listInter]
  constructor
  · rintro ⟨⟨⟨_, h1⟩, h2⟩, h3⟩
    exact ⟨h1, h2, h3⟩
  · rintro ⟨h1, h2, h3⟩
    have hall : r ∈ (mkFilter rules).all := by
      cases ht : t.category with
      | none => rw [ht] at h1; exact h1
      | some v =>
          rw [ht] at h1
          rcases (mem_listUnion _ _ _).mp h1 with hm | hm
          · exact hwc _ _ hm
          · exact hwc _ _ hm
    exact ⟨⟨⟨hall, h1⟩, h2⟩, h3⟩

end FilterClaims

section CollectionModel
/-!  `src/collection.rs`: the dependency graph (petgraph fragment:
node weights, an id-to-index map, an edge list, and the cached
topological order) and `SigmaCollection` with `insert`, `solve` and
`add`.  `toposort` is modelled by Kahn's algorithm; only its success
or failure (cycle detection) is consumed by the collection. -/

/-- `CollectionError`. -/
inductive CollectionError where
  | dependencyMissing (id dep : String)
  | dependencyCycle
  | parseError (s : String)
  | ioError
deriving DecidableEq, Repr

/-- `DependencyGraph`: `Graph<String, ()>` node weights in insertion
order, the name-to-index map, directed edges by index, and the cached
topological order. -/
structure DependencyGraph where
  nodes : List String
  idx : List (String × Nat)
  edges : List (Nat × Nat)
  sorted : List Nat
deriving DecidableEq, Repr

/-- `DependencyGraph::default`. -/
def DependencyGraph.empty : DependencyGraph := ⟨[], [], [], []⟩

/-- `DependencyGraph::add_node`: reuse the index of a known id,
otherwise append a fresh node. -/
def DependencyGraph.addNode (g : DependencyGraph) (id : String) :
    Nat × DependencyGraph :=
  match g.idx.lookup id with
  | some i => (i, g)
  | none =>
      let i := g.nodes.length
      (i, { g with nodes := g.nodes ++ [id], idx := g.idx ++ [(id, i)] })

/-- Kahn's algorithm with explicit fuel: repeatedly output a node
without incoming edges from the remaining set; `none` on a cycle. -/
def kahnFuel : Nat → List Nat → List (Nat × Nat) → Option (List Nat)
  | 0, remaining, _ => if remaining.isEmpty then some [] else none
  | fuel + 1, remaining, edges =>
      if remaining.isEmpty then some []
      else
        match remaining.find? (fun v =>
            !(edges.any fun e => e.2 == v && remaining.contains e.1)) with
        | none => none
        | some v => (kahnFuel fuel (remaining.erase v) edges).map fun l => v :: l

/-- `petgraph::algo::toposort` on the index graph: an order when the
graph is acyclic, `none` otherwise. -/
def topoSort (n : Nat) (edges : List (Nat × Nat)) : Option (List Nat) :=
  kahnFuel n (List.range n) edges

/-- `DependencyGraph::sort`: cache the topological order, failing with
`DependencyCycle` on a cyclic graph. -/
def DependencyGraph.sort (g : DependencyGraph) :
    Except CollectionError DependencyGraph :=
  match topoSort g.nodes.length g.edges with
  | some s => .ok { g with sorted := s }
  | none => .error .dependencyCycle

/-- `DependencyGraph::add_edge`: add both endpoints, append the edge,
and re-sort (cycle check). -/
def DependencyGraph.addEdge (g : DependencyGraph) (fromId toId : String) :
    Except CollectionError DependencyGraph :=
  let (fi, g) := g.addNode fromId
  let (ti, g) := g.addNode toId
  ({ g with edges := g.edges ++ [(fi, ti)] }).sort

/-- `HashMap::insert` on the association-list model: replace in place
or append. -/
def assocInsert {α : Type} (m : List (String × α)) (k : String) (v : α) :
    List (String × α) :=
  match m with
  | [] => [(k, v)]
  | (k', v') :: rest =>
      if k' = k then (k, v) :: rest else (k', v') :: assocInsert rest k v

/-- Whether a rule body is a correlation. -/
def RuleType.isCorrelation : RuleType → Bool
  | .correlation _ => true
  | .detection _ => false

/-- `SigmaCollection`: the rule map, the log-source filter, the
name-to-id map, and the dependency graph. -/
structure SigmaCollection where
  rules : List (String × SigmaRule)
  filters : LSFilter
  named : List (String × String)
  deps : DependencyGraph
deriving DecidableEq, Repr

/-- `SigmaCollection::default`. -/
def SigmaCollection.empty : SigmaCollection :=
  ⟨[], LSFilter.empty, [], DependencyGraph.empty⟩

/-- `SigmaCollection::insert`: record the name alias, index the rule in
the filter, and store it in the rule map (replacing any rule with the
same id). -/
def SigmaCollection.insert (c : SigmaCollection) (rule : SigmaRule) :
    SigmaCollection :=
  let named := match rule.name with
    | some n => assocInsert c.named n rule.id
    | none => c.named
  { c with
      named := named
      filters := c.filters.add rule
      rules := assocInsert c.rules rule.id rule }

/-- The dependency-resolution step of `SigmaCollection::solve`: map
each reference through the name table, then require it to be a rule
key, failing with `DependencyMissing`. -/
def solveDeps (named : List (String × String)) (ruleKeys : List String)
    (id : String) (corr : Correlation) :
    Except CollectionError (List String) :=
  corr.rules.mapM fun dep =>
    let dep := match named.lookup dep with
      | some i => i
      | none => dep
    if ruleKeys.contains dep then Except.ok dep
    else Except.error (.dependencyMissing id dep)

/-- `SigmaCollection::solve`: rebuild the dependency graph from
scratch — for every correlation rule resolve its references and add an
edge from each dependency to the rule — and sort it. -/
def SigmaCollection.solve (c : SigmaCollection) :
    Except CollectionError DependencyGraph := do
  let ruleKeys := c.rules.map Prod.fst
  let g ← c.rules.foldlM (fun g entry =>
    match entry.2.rule with
    | .correlation corr => do
        let deps ← solveDeps c.named ruleKeys entry.1 corr
        deps.foldlM (fun g dep => DependencyGraph.addEdge g dep entry.1) g
    | .detection _ => .ok g) DependencyGraph.empty
  g.sort

/-- `SigmaCollection::add`: insert first, then solve; the new graph is
installed only on success, while the insertion itself is never rolled
back. -/
def SigmaCollection.add (c : SigmaCollection) (rule : SigmaRule) :
    Except CollectionError Unit × SigmaCollection :=
  let c := c.insert rule
  match c.solve with
  | .ok g => (.ok (), { c with deps := g })
  | .error e => (.error e, c)

end CollectionModel

section CollectionClaims

/-- Looking up the inserted key finds the inserted value. -/
theorem assocInsert_lookup_self {α : Type} (m : List (String × α)) (k : String) (v : α) :
    (assocInsert m k v).lookup k = some v := by
  induction m with
  | nil => simp [assocInsert, List.lookup]
  | cons head rest ih =>
      obtain ⟨k', v'⟩ := head
      by_cases h : k' = k
      · subst h
        simp [assocInsert, List.lookup]
      · simp only [assocInsert, if_neg h, List.lookup,
          beq_eq_false_iff_ne.mpr (fun he => h he.symm)]
        exact ih

/-- A correlation rule referencing a dependency that is not in the
collection (fixture). -/
def c2MissingDepRule : SigmaRule :=
  ⟨"c2-corr", none, .correlation ⟨.temporal, ["missing-dep"], ["g"], "c2-corr"⟩⟩

/-- Counterexample to C2: `add` of a rule with a missing dependency
returns the `DependencyMissing` error, yet the rule is found in the
rule map afterwards — the collection is not left unchanged. -/
theorem c2_failed_add_rule_still_present :
    (SigmaCollection.empty.add c2MissingDepRule).1 =
      .error (.dependencyMissing "c2-corr" "missing-dep") ∧
    ((SigmaCollection.empty.add c2MissingDepRule).2.rules.lookup "c2-corr")
      = some c2MissingDepRule := by
  exact ⟨rfl, rfl⟩

/-- C2 (amended): `add` is insert-then-solve without rollback — when it
returns an error the collection equals the collection after the bare
insertion: the rule is present in the rule map (and the name map and
filter index were updated by the same insertion); only the dependency
graph is left as it was before the call. -/
theorem c2_add_error_keeps_insertion (c : SigmaCollection) (r : SigmaRule)
    (e : CollectionError) (h : (c.add r).1 = .error e) :
    (c.add r).2 = c.insert r ∧
    ((c.add r).2.rules.lookup r.id = some r) ∧
    (c.add r).2.deps = c.deps := by
  have hrules : (c.insert r).rules = assocInsert c.rules r.id r := rfl
  have hdeps : (c.insert r).deps = c.deps := rfl
  cases hs : (c.insert r).solve with
  | ok g =>
      exfalso
      have hok : (c.add r).1 = .ok () := by
        simp [SigmaCollection.add, hs]
      rw [hok] at h
      cases h
  | error e' =>
      have h2 : (c.add r).2 = c.insert r := by
        simp [SigmaCollection.add, hs]
      refine ⟨h2, ?_, ?_⟩
      · rw [h2, hrules]
        exact assocInsert_lookup_self _ _ _
      · rw [h2, hdeps]

/-- Witness for `c2_add_error_keeps_insertion` at the missing-dependency
fixture. -/
theorem c2_add_error_keeps_insertion_witness :
    (SigmaCollection.empty.add c2MissingDepRule).2
        = SigmaCollection.empty.insert c2MissingDepRule ∧
    ((SigmaCollection.empty.add c2MissingDepRule).2.rules.lookup "c2-corr"
        = some c2MissingDepRule) ∧
    (SigmaCollection.empty.add c2MissingDepRule).2.deps = SigmaCollection.empty.deps :=
  c2_add_error_keeps_insertion SigmaCollection.empty c2MissingDepRule
    (.dependencyMissing "c2-corr" "missing-dep") rfl

/-- A fold over rules none of which is a correlation leaves the graph
accumulator untouched and never fails. -/
theorem foldlM_no_corr (named : List (String × String)) (ruleKeys : List String)
    (rules : List (String × SigmaRule))
    (hnoc : ∀ e ∈ rules, e.2.rule.isCorrelation = false) :
    ∀ g : DependencyGraph,
      rules.foldlM (fun g entry =>
        match entry.2.rule with
        | .correlation corr => do
            let deps ← solveDeps named ruleKeys entry.1 corr
            deps.foldlM (fun g dep => DependencyGraph.addEdge g dep entry.1) g
        | .detection _ => .ok g) g = .ok g := by
  induction rules with
  | nil => intro g; rfl
  | cons entry rest ih =>
      intro g
      have hent := hnoc entry (List.mem_cons_self _ _)
      cases he : entry.2.rule with
      | correlation corr =>
          rw [he] at hent
          simp [RuleType.isCorrelation] at hent
      | detection ls =>
          rw [List.foldlM_cons, he]
          exact ih (fun e hm => hnoc e (List.mem_cons_of_mem _ hm)) g

/-- `solve` succeeds with the empty graph on a collection that holds no
correlation rules. -/
theorem solve_of_no_correlation (c : SigmaCollection)
    (hnoc : ∀ e ∈ c.rules, e.2.rule.isCorrelation = false) :
    c.solve = .ok DependencyGraph.empty := by
  have hdef : c.solve = ((c.rules.foldlM (fun g entry =>
      match entry.2.rule with
      | .correlation corr => do
          let deps ← solveDeps c.named (c.rules.map Prod.fst) entry.1 corr
          deps.foldlM (fun g dep => DependencyGraph.addEdge g dep entry.1) g
      | .detection _ => .ok g) DependencyGraph.empty) >>= fun g => g.sort) := rfl
  rw [hdef, foldlM_no_corr c.named (c.rules.map Prod.fst) c.rules hnoc DependencyGraph.empty]
  rfl

/-- A first detection rule under id `r` (fixture). -/
def c9RuleA : SigmaRule := ⟨"r", some "first-version", .detection ⟨some "test", none, none⟩⟩

/-- A second, different detection rule under the same id `r` (fixture). -/
def c9RuleB : SigmaRule := ⟨"r", some "second-version", .detection ⟨some "other", none, none⟩⟩

/-- A collection already holding `c9RuleA` (fixture). -/
def c9Coll : SigmaCollection := (SigmaCollection.empty.add c9RuleA).2

/-- Counterexample to C9: adding a rule whose id is already present
succeeds (no error) and silently replaces the stored rule. -/
theorem c9_duplicate_id_not_an_error :
    ((c9Coll.rules.lookup "r").isSome = true) ∧
    (c9Coll.add c9RuleB).1 = .ok () ∧
    ((c9Coll.add c9RuleB).2.rules.lookup "r") = some c9RuleB := by
  exact ⟨rfl, rfl, rfl⟩

/-- C9 (amended): `add` does not treat a duplicate id as an error —
the insertion replaces the stored rule under that id, and (on any
collection whose rules are all detections, where `solve` cannot fail)
the call returns `Ok`. -/
theorem c9_duplicate_id_replaces (c : SigmaCollection) (r : SigmaRule)
    (_hdup : (c.rules.lookup r.id).isSome = true)
    (hnoc : ∀ e ∈ (c.insert r).rules, e.2.rule.isCorrelation = false) :
    (c.add r).1 = .ok () ∧ ((c.add r).2.rules.lookup r.id = some r) := by
  have hs : (c.insert r).solve = .ok DependencyGraph.empty :=
    solve_of_no_correlation _ hnoc
  constructor
  · simp [SigmaCollection.add, hs]
  · have h2 : (c.add r).2 = { c.insert r with deps := DependencyGraph.empty } := by
      simp [SigmaCollection.add, hs]
    rw [h2]
    show (assocInsert c.rules r.id r).lookup r.id = some r
    exact assocInsert_lookup_self _ _ _

/-- Witness for `c9_duplicate_id_replaces` at the duplicate-id fixture. -/
theorem c9_duplicate_id_replaces_witness :
    (c9Coll.add c9RuleB).1 = .ok () ∧
    ((c9Coll.add c9RuleB).2.rules.lookup "r" = some c9RuleB) :=
  c9_duplicate_id_replaces c9Coll c9RuleB (by decide) (by decide)

end CollectionClaims

section TimespanModel
/-!  `TimespanVisitor::visit_str` of `src/correlation/serde.rs`.  The
result type distinguishes a parsed duration (in seconds), a serde
error, and a Rust panic.  On the empty string `value.len() - 1`
underflows `usize` and the slice `value[..value.len() - 1]` panics
before any parsing happens.  (A multi-byte final character would also
panic on a UTF-8 boundary; the model works per character, and no claim
exercises that input.) -/

/-- The outcome of the timespan visitor on one input string. -/
inductive TimespanResult where
  | ok (secs : Nat)
  | err
  | panic
deriving DecidableEq, Repr

/-- `str::parse::<u64>`: optional `+`, decimal digits, `u64` range. -/
def parseU64 : List Char → Option Nat
  | '+' :: rest => (parseDecNat rest).bind fun n => if n < 2 ^ 64 then some n else none
  | l => (parseDecNat l).bind fun n => if n < 2 ^ 64 then some n else none

/-- `TimespanVisitor::visit_str`: split the input into
`value[..value.len() - 1]` (the number) and `value[value.len() - 1..]`
(the unit `s`/`m`/`h`/`d`), panicking on the empty string where the
subtraction underflows. -/
def timespanVisitStr (value : String) : TimespanResult :=
  if value.length = 0 then .panic
  else
    match parseU64 value.data.dropLast with
    | none => .err
    | some n =>
        match value.data.getLast? with
        | some 's' => .ok n
        | some 'm' => .ok (n * 60)
        | some 'h' => .ok (n * 3600)
        | some 'd' => .ok (n * 86400)
        | _ => .err

end TimespanModel

section TimespanClaims

/-- C10: the claim says timespan deserialization is total — every
string yields a duration or a deserialization error and the visitor
never panics.  On the empty string the slice bound `value.len() - 1`
underflows and the visitor panics; well-formed inputs scale by the
unit and malformed ones error. -/
theorem c10_timespan_empty_string_panics :
    timespanVisitStr "" = .panic ∧
    timespanVisitStr "5m" = .ok 300 ∧
    timespanVisitStr "2h" = .ok 7200 ∧
    timespanVisitStr "3d" = .ok 259200 ∧
    timespanVisitStr "7s" = .ok 7 ∧
    timespanVisitStr "xyz" = .err := by
  decide

end TimespanClaims
